import Mathlib

/-!
Verification of `tuple_split` (sigurd4/tuple_split, src/lib.rs).

The crate splits a fixed-arity heterogeneous tuple into a left part
(the first `MIDDLE` components) and a right part (the rest).  All the
work happens at the type level: a macro generates, for every arity
`n ≤ N_max` and every split point `k ∈ [0, n]`, one implementation of
`TupleSplitAt<MIDDLE>` (and matching `TupleSplitIntoLeft` /
`TupleSplitIntoRight` implementations), each of which destructures the
tuple and regroups its components positionally.

Embedding choices:
* A tuple value is a `List Val`, where `Val` carries the element types
  appearing in the crate's tests and docs.  The split operations never
  inspect or compute with the payloads, so float and string payloads are
  kept as literal tokens.
* The shape (Rust type) of a tuple is its list of `Ty` tags.
* A trait method that only resolves when a generated implementation
  exists is embedded as an `Option`-returning function: `none` models
  "no implementation, the program does not build".
* The macro expansion (`impl_split_single` / `impl_split_combinations` /
  `impl_split_all`, src/lib.rs lines 319-377) is modelled as a recursion
  over lists of formal type-variable labels, mirroring the token lists
  the macros manipulate.
* The cargo feature gates (src/lib.rs lines 379-536) are modelled as a
  record of booleans with one tier-activation condition per `cfg` gate.
-/

namespace TupleSplit

/-- Element types occurring in the crate's doc examples and tests
(`u8, f32, &str` in `test_split_concat`; `u8..u128` in `tests::test`). -/
inductive Ty where
  | u8
  | u16
  | u32
  | u64
  | u128
  | f32
  | str
deriving DecidableEq, Repr

/-- A tuple component: a type tag with its payload.  Payloads of `f32`
and `&str` components are kept as literal tokens because the split
operations only move components, never compute with them. -/
inductive Val where
  | u8 (n : Nat)
  | u16 (n : Nat)
  | u32 (n : Nat)
  | u64 (n : Nat)
  | u128 (n : Nat)
  | f32 (lit : String)
  | str (s : String)
deriving DecidableEq, Repr

/-- The Rust type tag of a component. -/
def ty : Val → Ty
  | .u8 _ => .u8
  | .u16 _ => .u16
  | .u32 _ => .u32
  | .u64 _ => .u64
  | .u128 _ => .u128
  | .f32 _ => .f32
  | .str _ => .str

/-- The type (shape) of a tuple value: its positional list of type tags. -/
def tupleTy (t : List Val) : List Ty := t.map ty

/-- Maximum tuple arity in the default configuration:
`#[cfg(not(feature = "8"))] impl_split_all! { (_1, _2, _3, _4) }`
(src/lib.rs lines 379-384). -/
def maxArity : Nat := 4

/-- Models `tupleops::concat_tuples`, the concatenation operation consumed
from the companion `tupleops` crate (external interface, spec section 6):
the value-level join of two tuples, positionally in order. -/
def concat_tuples (l r : List Val) : List Val := l ++ r

/-- `split_tuple_at::<MIDDLE>` (src/lib.rs lines 247-252) dispatched to the
generated `TupleSplitAt` implementation (lines 321-331).  A generated
implementation exists exactly for arity `n ≤ maxArity` and `MIDDLE ≤ n`;
its body destructures the tuple and regroups it into the first `MIDDLE`
components and the rest.  `none` models a compile-time resolution failure. -/
def split_tuple_at (middle : Nat) (t : List Val) : Option (List Val × List Val) :=
  if middle ≤ t.length ∧ t.length ≤ maxArity then
    some (t.take middle, t.drop middle)
  else
    none

/-- `split_tuple_into_left::<L>` (src/lib.rs lines 290-296) dispatched to the
generated `TupleSplitIntoLeft` implementation (lines 333-342).  The
implementation generated for the pair of type lists `(ts1, ts2)` applies to
tuples of type `ts1 ++ ts2` with `L = ts1`, so an implementation applies to
`t` exactly when `L` is the positional type list of the first `|L|`
components of `t` and the arity is supported. -/
def split_tuple_into_left (L : List Ty) (t : List Val) :
    Option (List Val × List Val) :=
  if (tupleTy t).take L.length = L ∧ t.length ≤ maxArity then
    some (t.take L.length, t.drop L.length)
  else
    none

/-- `split_tuple_into_right::<R>` (src/lib.rs lines 311-317) dispatched to the
generated `TupleSplitIntoRight` implementation (lines 343-352): an
implementation applies to `t` exactly when `R` is the positional type list of
the last `|R|` components of `t` and the arity is supported; the split point
is then `n - |R|`. -/
def split_tuple_into_right (R : List Ty) (t : List Val) :
    Option (List Val × List Val) :=
  if (tupleTy t).drop (t.length - R.length) = R ∧ t.length ≤ maxArity then
    some (t.take (t.length - R.length), t.drop (t.length - R.length))
  else
    none

/-- `split_tuple_into::<L, R>` (src/lib.rs lines 267-275) via the blanket
`TupleSplitInto` implementation (lines 170-180): it requires
`TupleSplitIntoLeft<L, Right = R>` and `TupleSplitIntoRight<R, Left = L>`,
i.e. the type list of `t` is exactly `L ++ R`, and its body simply calls
`split_tuple_into_left`. -/
def split_tuple_into (L R : List Ty) (t : List Val) :
    Option (List Val × List Val) :=
  if tupleTy t = L ++ R ∧ t.length ≤ maxArity then
    split_tuple_into_left L t
  else
    none

/-- Models the macro `impl_split_combinations` (src/lib.rs lines 355-367)
on the token lists it manipulates: from the pair of label lists
`(ts1, ts2)` it emits one `impl_split_single` invocation for `(ts1, ts2)`
and, when `ts1 = t0 :: rest`, recurses on `(rest, t0 :: ts2)`, moving
exactly one labelled slot across the boundary; the base case emits the
single invocation for `([], ts2)`. -/
def impl_split_combinations {α : Type} : List α → List α → List (List α × List α)
  | [], ts2 => [([], ts2)]
  | t0 :: ts1, ts2 => (t0 :: ts1, ts2) :: impl_split_combinations ts1 (t0 :: ts2)

/-- Models the macro `impl_split_all` (src/lib.rs lines 368-377): it runs
`impl_split_combinations` on the full label list (with an empty right
side, line 364-366) and recurses on the tail, covering every smaller
arity down to the empty tuple. -/
def impl_split_all {α : Type} : List α → List (List α × List α)
  | [] => impl_split_combinations [] []
  | t0 :: ts => impl_split_combinations (t0 :: ts) [] ++ impl_split_all ts

/-- The `(arity, split point)` pair implemented by one `impl_split_single`
invocation on `(ts1, ts2)` (src/lib.rs lines 319-354): the labels are
universally quantified type variables, so the emitted implementation is
`TupleSplitAt<count(ts1)>` for the tuple of arity `|ts1| + |ts2|`, with
`Left` the first `|ts1|` components and `Right` the remaining `|ts2|`. -/
def specAt {α : Type} (p : List α × List α) : Nat × Nat :=
  (p.1.length + p.2.length, p.1.length)

/-- The label list `(_1, _2, _3, _4)` fed to `impl_split_all!` in the
default configuration (src/lib.rs lines 379-384), as formal tokens. -/
def defaultLabels : List Nat := [1, 2, 3, 4]

/-- The `(arity, split point)` pairs of all `TupleSplitAt` specializations
generated in the default configuration. -/
def generated_specs : List (Nat × Nat) :=
  (impl_split_all defaultLabels).map specAt

/-- The cargo features of the crate that are consulted by the `cfg` gates
around the `impl_split_all!` invocations (src/lib.rs lines 379-536):
the ten maximum-arity tier features and
`dont_hurt_yourself_by_using_all_features`. -/
structure Features where
  f8 : Bool
  f16 : Bool
  f32 : Bool
  f64 : Bool
  f96 : Bool
  f128 : Bool
  f160 : Bool
  f192 : Bool
  f224 : Bool
  f256 : Bool
  dontHurt : Bool
deriving DecidableEq, Repr

/-- The maximum-arity tiers whose `impl_split_all!` block is active under a
feature configuration, transcribing the `cfg` gates of src/lib.rs lines
379-536 one by one:
tier 4 under `not(feature = "8")`;
tier 8 under `feature = "8"` and
`any(feature = "dont_hurt_yourself_by_using_all_features", not(feature = "16"))`;
tier `m` for `m = 16 .. 224` under `feature = "m"`,
`not(feature = "dont_hurt_yourself_by_using_all_features")` and
`not(feature = "next tier")`;
tier 256 under `feature = "256"` and
`not(feature = "dont_hurt_yourself_by_using_all_features")`. -/
def activeTiers (c : Features) : List Nat :=
  (if ¬c.f8 then [4] else []) ++
  (if c.f8 ∧ (c.dontHurt ∨ ¬c.f16) then [8] else []) ++
  (if c.f16 ∧ ¬c.dontHurt ∧ ¬c.f32 then [16] else []) ++
  (if c.f32 ∧ ¬c.dontHurt ∧ ¬c.f64 then [32] else []) ++
  (if c.f64 ∧ ¬c.dontHurt ∧ ¬c.f96 then [64] else []) ++
  (if c.f96 ∧ ¬c.dontHurt ∧ ¬c.f128 then [96] else []) ++
  (if c.f128 ∧ ¬c.dontHurt ∧ ¬c.f160 then [128] else []) ++
  (if c.f160 ∧ ¬c.dontHurt ∧ ¬c.f192 then [160] else []) ++
  (if c.f192 ∧ ¬c.dontHurt ∧ ¬c.f224 then [192] else []) ++
  (if c.f224 ∧ ¬c.dontHurt ∧ ¬c.f256 then [224] else []) ++
  (if c.f256 ∧ ¬c.dontHurt then [256] else [])

/-- How many maximum-arity tier features a configuration selects
(`dont_hurt_yourself_by_using_all_features` is not a tier). -/
def selectedTierCount (c : Features) : Nat :=
  [c.f8, c.f16, c.f32, c.f64, c.f96, c.f128, c.f160, c.f192, c.f224,
    c.f256].count true

/-- A configuration fails to build when two or more `impl_split_all!`
blocks are active: every block re-implements `TupleSplitAt` for all the
small arities it covers, so two active blocks emit conflicting trait
implementations and `rustc` rejects the crate. -/
def buildRejected (c : Features) : Bool :=
  2 ≤ (activeTiers c).length

/-- The configuration produced by `cargo --all-features`: every feature
enabled, including `dont_hurt_yourself_by_using_all_features`. -/
def allFeatures : Features :=
  ⟨true, true, true, true, true, true, true, true, true, true, true⟩

/-- The concrete source tuple `(1: u8, 1.0: f32, "test")` of the crate's
doc examples and `tests::test_split_concat` (src/lib.rs lines 543-559). -/
def exampleTuple : List Val := [Val.u8 1, Val.f32 "1.0", Val.str "test"]

theorem length_tupleTy (t : List Val) : (tupleTy t).length = t.length := by
  simp [tupleTy]

/-- C1: For every supported tuple `T` of arity `n` and every split index
`k ∈ [0, n]`, `split_tuple_at::<k>(T)` resolves, and concatenating the
returned pair with `tupleops::concat_tuples` reproduces `T` exactly —
same arity, same positional element types and values (equality of the
component lists gives all three at once). -/
theorem split_at_concat_roundtrip (t : List Val) (k : Nat)
    (hk : k ≤ t.length) (hmax : t.length ≤ maxArity) :
    ∃ l r, split_tuple_at k t = some (l, r) ∧ concat_tuples l r = t := by
  refine ⟨t.take k, t.drop k, ?_, ?_⟩
  · simp [split_tuple_at, hk, hmax]
  · simp [concat_tuples]

theorem split_at_concat_roundtrip_witness :
    ∃ l r, split_tuple_at 1 [Val.u8 7, Val.u16 9] = some (l, r) ∧
      concat_tuples l r = [Val.u8 7, Val.u16 9] :=
  split_at_concat_roundtrip [Val.u8 7, Val.u16 9] 1 (by decide) (by decide)

/-- C2: For every supported tuple `T` of arity `n` and every `k ∈ [0, n]`,
`split_tuple_into_left::<L>(T)` with `L` the type of the first `k`
positions of `T` returns the same pair as `split_tuple_at::<k>(T)`, and
`split_tuple_into_right::<R>(T)` with `R` the type of the last `n - k`
positions returns that same pair as well. -/
theorem split_into_shape_index_equiv (t : List Val) (k : Nat)
    (hk : k ≤ t.length) (hmax : t.length ≤ maxArity) :
    split_tuple_into_left ((tupleTy t).take k) t = split_tuple_at k t ∧
    split_tuple_into_right ((tupleTy t).drop k) t = split_tuple_at k t := by
  have hlt : ((tupleTy t).take k).length = k := by
    simp [length_tupleTy, Nat.min_eq_left hk]
  have hld : ((tupleTy t).drop k).length = t.length - k := by
    simp [length_tupleTy]
  constructor
  · simp [split_tuple_into_left, split_tuple_at, hlt, hk, hmax]
  · have hsub : t.length - (t.length - k) = k := Nat.sub_sub_self hk
    simp [split_tuple_into_right, split_tuple_at, hld, hsub, hk, hmax]

theorem split_into_shape_index_equiv_witness :
    split_tuple_into_left ((tupleTy [Val.u8 7, Val.u16 9]).take 1)
        [Val.u8 7, Val.u16 9] =
      split_tuple_at 1 [Val.u8 7, Val.u16 9] ∧
    split_tuple_into_right ((tupleTy [Val.u8 7, Val.u16 9]).drop 1)
        [Val.u8 7, Val.u16 9] =
      split_tuple_at 1 [Val.u8 7, Val.u16 9] :=
  split_into_shape_index_equiv [Val.u8 7, Val.u16 9] 1 (by decide) (by decide)

/-- C3: Whenever `L` is a valid left shape of `T`, `R` a valid right
shape, and `|L| + |R|` equals `T`'s arity, `split_tuple_into::<L, R>(T)`
resolves and returns exactly the result of
`split_tuple_into_left::<L>(T)` — the blanket `TupleSplitInto`
implementation's body is that very call. -/
theorem split_into_refines_left (t : List Val) (L R : List Ty)
    (hL : (tupleTy t).take L.length = L)
    (hR : (tupleTy t).drop (t.length - R.length) = R)
    (hlen : L.length + R.length = t.length)
    (hmax : t.length ≤ maxArity) :
    split_tuple_into L R t = split_tuple_into_left L t ∧
    ∃ p, split_tuple_into L R t = some p := by
  have hsub : t.length - R.length = L.length := by omega
  have hty : tupleTy t = L ++ R := by
    rw [hsub] at hR
    conv_lhs => rw [← List.take_append_drop L.length (tupleTy t)]
    rw [hL, hR]
  refine ⟨by simp [split_tuple_into, hty, hmax], ?_⟩
  simp [split_tuple_into, split_tuple_into_left, hty, hmax, hL]

theorem split_into_refines_left_witness :
    split_tuple_into [Ty.u8] [Ty.u16] [Val.u8 7, Val.u16 9] =
      split_tuple_into_left [Ty.u8] [Val.u8 7, Val.u16 9] ∧
    ∃ p, split_tuple_into [Ty.u8] [Ty.u16] [Val.u8 7, Val.u16 9] = some p :=
  split_into_refines_left [Val.u8 7, Val.u16 9] [Ty.u8] [Ty.u16]
    (by decide) (by decide) (by decide) (by decide)

/-- C4: For every supported tuple `T` of arity `n`, splitting at index `0`
yields the empty left tuple and the whole source on the right, and
splitting at index `n` yields the whole source on the left and the empty
right tuple. -/
theorem split_at_boundary (t : List Val) (hmax : t.length ≤ maxArity) :
    split_tuple_at 0 t = some ([], t) ∧
    split_tuple_at t.length t = some (t, []) := by
  constructor <;> simp [split_tuple_at, hmax]

theorem split_at_boundary_witness :
    split_tuple_at 0 [Val.u8 7, Val.u16 9] = some ([], [Val.u8 7, Val.u16 9]) ∧
    split_tuple_at 2 [Val.u8 7, Val.u16 9] = some ([Val.u8 7, Val.u16 9], []) :=
  split_at_boundary [Val.u8 7, Val.u16 9] (by decide)

/-- C5: For every supported tuple `T` and complementary shapes `L` and `R`
(the type of `T` is exactly `L ++ R`), `split_tuple_into_left::<L>(T)`
and `split_tuple_into_right::<R>(T)` both resolve and return the same
(Left, Right) pair. -/
theorem split_into_left_right_consistent (t : List Val) (L R : List Ty)
    (hty : tupleTy t = L ++ R) (hmax : t.length ≤ maxArity) :
    split_tuple_into_left L t = split_tuple_into_right R t ∧
    ∃ p, split_tuple_into_left L t = some p := by
  have hlen : L.length + R.length = t.length := by
    have h := congrArg List.length hty
    simp [length_tupleTy] at h
    omega
  have hsub : t.length - R.length = L.length := by omega
  have hL : (tupleTy t).take L.length = L := by
    rw [hty, List.take_left]
  have hR : (tupleTy t).drop L.length = R := by
    rw [hty, List.drop_left]
  constructor
  · simp [split_tuple_into_left, split_tuple_into_right, hL, hR, hsub, hmax]
  · simp [split_tuple_into_left, hL, hmax]

theorem split_into_left_right_consistent_witness :
    split_tuple_into_left [Ty.u8] [Val.u8 7, Val.u16 9] =
      split_tuple_into_right [Ty.u16] [Val.u8 7, Val.u16 9] ∧
    ∃ p, split_tuple_into_left [Ty.u8] [Val.u8 7, Val.u16 9] = some p :=
  split_into_left_right_consistent [Val.u8 7, Val.u16 9] [Ty.u8] [Ty.u16]
    (by decide) (by decide)

/-- C7: Once a split resolves (the generated implementation exists), there
is no runtime failure path: the operation always succeeds, it is a
function of its input (deterministic), and its entire effect is to move
the source's components, unchanged and in order, into the two result
tuples — concatenating any returned pair gives back exactly the source. -/
theorem split_no_runtime_failure :
    (∀ (k : Nat) (t : List Val), k ≤ t.length → t.length ≤ maxArity →
      (split_tuple_at k t).isSome) ∧
    (∀ (k : Nat) (t : List Val) (l r : List Val),
      split_tuple_at k t = some (l, r) → concat_tuples l r = t) ∧
    (∀ (L : List Ty) (t : List Val) (l r : List Val),
      split_tuple_into_left L t = some (l, r) → concat_tuples l r = t) ∧
    (∀ (R : List Ty) (t : List Val) (l r : List Val),
      split_tuple_into_right R t = some (l, r) → concat_tuples l r = t) ∧
    (∀ (L R : List Ty) (t : List Val) (l r : List Val),
      split_tuple_into L R t = some (l, r) → concat_tuples l r = t) := by
  refine ⟨?_, ?_, ?_, ?_, ?_⟩
  · intro k t hk hmax
    simp [split_tuple_at, hk, hmax]
  · intro k t l r h
    unfold split_tuple_at at h
    split at h
    · injection h with h
      injection h with h1 h2
      simp [concat_tuples, ← h1, ← h2]
    · exact absurd h (by simp)
  · intro L t l r h
    unfold split_tuple_into_left at h
    split at h
    · injection h with h
      injection h with h1 h2
      simp [concat_tuples, ← h1, ← h2]
    · exact absurd h (by simp)
  · intro R t l r h
    unfold split_tuple_into_right at h
    split at h
    · injection h with h
      injection h with h1 h2
      simp [concat_tuples, ← h1, ← h2]
    · exact absurd h (by simp)
  · intro L R t l r h
    unfold split_tuple_into at h
    split at h
    · unfold split_tuple_into_left at h
      split at h
      · injection h with h
        injection h with h1 h2
        simp [concat_tuples, ← h1, ← h2]
      · exact absurd h (by simp)
    · exact absurd h (by simp)

theorem split_no_runtime_failure_witness :
    (split_tuple_at 1 [Val.u8 7, Val.u16 9]).isSome ∧
    concat_tuples [Val.u8 7] [Val.u16 9] = [Val.u8 7, Val.u16 9] :=
  ⟨split_no_runtime_failure.1 1 [Val.u8 7, Val.u16 9] (by decide) (by decide),
    split_no_runtime_failure.2.1 1 [Val.u8 7, Val.u16 9]
      [Val.u8 7] [Val.u16 9] (by decide)⟩

theorem mem_generated_specs {n k : Nat} (h : (n, k) ∈ generated_specs) :
    k ≤ n ∧ n ≤ maxArity := by
  simp [generated_specs, defaultLabels, impl_split_all, impl_split_combinations,
    specAt, Prod.ext_iff] at h
  show k ≤ n ∧ n ≤ 4
  omega

theorem count_generated_specs_of_lt (n k : Nat) (hn : n < 5) (hk : k < 5) :
    generated_specs.count (n, k) =
      if k ≤ n ∧ n ≤ maxArity then 1 else 0 := by
  revert hk
  revert k
  revert hn
  revert n
  decide

/-- C6: In the default configuration (maximum arity 4), the macro expansion
generates, for every arity `n ∈ [0, 4]` and every split point `k ∈ [0, n]`,
exactly one `TupleSplitAt<k>` specialization for the arity-`n` tuple (and
none outside that range), and on every tuple of arity `n` that
specialization produces a Left of arity `k` whose element types are
positions `[0, k)` of the source and a Right of arity `n - k` whose
element types are positions `[k, n)`. -/
theorem generated_specs_complete :
    (∀ n k : Nat, generated_specs.count (n, k) =
      if k ≤ n ∧ n ≤ maxArity then 1 else 0) ∧
    (∀ n k : Nat, (n, k) ∈ generated_specs → ∀ t : List Val, t.length = n →
      ∃ l r, split_tuple_at k t = some (l, r) ∧
        l.length = k ∧ r.length = n - k ∧
        tupleTy l = (tupleTy t).take k ∧ tupleTy r = (tupleTy t).drop k) := by
  constructor
  · intro n k
    by_cases hn : n ≤ 4
    · by_cases hk : k ≤ 4
      · exact count_generated_specs_of_lt n k (by omega) (by omega)
      · have hnot : (n, k) ∉ generated_specs := fun h => by
          have := mem_generated_specs h
          simp [maxArity] at this
          omega
        rw [List.count_eq_zero.mpr hnot, if_neg]
        simp [maxArity]
        omega
    · have hnot : (n, k) ∉ generated_specs := fun h => by
        have := mem_generated_specs h
        simp [maxArity] at this
        omega
      rw [List.count_eq_zero.mpr hnot, if_neg]
      simp [maxArity]
      omega
  · intro n k hmem t hlen
    obtain ⟨hk, hmax⟩ := mem_generated_specs hmem
    refine ⟨t.take k, t.drop k, ?_, ?_, ?_, ?_, ?_⟩
    · simp [split_tuple_at, hlen ▸ hk, hlen ▸ hmax]
    · simp [List.length_take]
      omega
    · simp [List.length_drop]
      omega
    · simp [tupleTy, List.map_take]
    · simp [tupleTy, List.map_drop]

theorem generated_specs_complete_witness :
    generated_specs.count (3, 2) = 1 ∧
    ∃ l r, split_tuple_at 2 exampleTuple = some (l, r) ∧
      l.length = 2 ∧ r.length = 3 - 2 ∧
      tupleTy l = (tupleTy exampleTuple).take 2 ∧
      tupleTy r = (tupleTy exampleTuple).drop 2 :=
  ⟨by simpa using generated_specs_complete.1 3 2,
    generated_specs_complete.2 3 2 (by decide) exampleTuple rfl⟩

/-- C8: On the concrete source tuple `(1: u8, 1.0: f32, "test")`:
splitting at 0 gives `((), (1, 1.0, "test"))`; at 1 gives
`((1,), (1.0, "test"))`; at 2 gives `((1, 1.0), ("test",))`; at 3 gives
`((1, 1.0, "test"), ())`; and `split_tuple_into_left` with the shape
`(u8, f32)` returns the same pair as splitting at 2. -/
theorem concrete_scenario :
    split_tuple_at 0 exampleTuple = some ([], exampleTuple) ∧
    split_tuple_at 1 exampleTuple =
      some ([Val.u8 1], [Val.f32 "1.0", Val.str "test"]) ∧
    split_tuple_at 2 exampleTuple =
      some ([Val.u8 1, Val.f32 "1.0"], [Val.str "test"]) ∧
    split_tuple_at 3 exampleTuple =
      some ([Val.u8 1, Val.f32 "1.0", Val.str "test"], []) ∧
    split_tuple_into_left [Ty.u8, Ty.f32] exampleTuple =
      split_tuple_at 2 exampleTuple := by
  decide

/-- C10: The empty tuple is itself splittable: a `TupleSplitAt<0>`
specialization for the arity-0 tuple is generated, `split_tuple_at::<0>`
on `()` returns `((), ())`, and `0` is the only split point generated for
arity 0. -/
theorem empty_tuple_split :
    split_tuple_at 0 ([] : List Val) = some ([], []) ∧
    ∀ k : Nat, (0, k) ∈ generated_specs ↔ k = 0 := by
  refine ⟨by decide, fun k => ⟨fun h => ?_, fun h => by subst h; decide⟩⟩
  have := mem_generated_specs h
  omega

theorem empty_tuple_split_witness : (0, 0) ∈ generated_specs :=
  (empty_tuple_split.2 0).mpr rfl

/-- C9 counterexample: the claim says selecting more than one maximum-arity
feature is rejected at build time, but with exactly the features `8` and
`16` enabled (two tiers selected) the `cfg` gates leave exactly one
`impl_split_all!` block active — the 16 tier — so the crate builds. -/
theorem multi_feature_not_rejected :
    selectedTierCount
        ⟨true, true, false, false, false, false, false, false, false, false,
          false⟩ = 2 ∧
    buildRejected
        ⟨true, true, false, false, false, false, false, false, false, false,
          false⟩ = false ∧
    activeTiers
        ⟨true, true, false, false, false, false, false, false, false, false,
          false⟩ = [16] := by
  decide

/-- C9 amended: selecting more than one maximum-arity feature is not
uniformly rejected at build time: a selection that leaves two or more
`impl_split_all!` blocks active (such as `16` together with `64`) emits
conflicting specializations and fails to build, while adjacent
selections such as `8` with `16` build with the larger tier active.  The
safety feature does cap the largest tiers: whenever
`dont_hurt_yourself_by_using_all_features` is enabled — in particular
under `--all-features` — the only active block is tier 8 (or tier 4 when
feature `8` is off), so the maximum supported arity is capped at 8. -/
theorem feature_gate_behavior :
    (∀ c : Features, c.dontHurt = true →
      activeTiers c = if c.f8 then [8] else [4]) ∧
    activeTiers allFeatures = [8] ∧
    buildRejected
        ⟨true, true, false, false, false, false, false, false, false, false,
          false⟩ = false ∧
    buildRejected
        ⟨false, true, false, true, false, false, false, false, false, false,
          false⟩ = true := by
  refine ⟨?_, by decide, by decide, by decide⟩
  rintro ⟨f8, f16, f32, f64, f96, f128, f160, f192, f224, f256, dh⟩ h
  simp only at h
  subst h
  cases f8 <;> simp [activeTiers]

theorem feature_gate_behavior_witness :
    activeTiers allFeatures = if allFeatures.f8 then [8] else [4] :=
  feature_gate_behavior.1 allFeatures rfl

end TupleSplit
